import Mathlib

/-
Verification of the Hacker News terminal client (src/main.py) against its
natural-language specification.

The program is embedded shallowly:
* the external API is a parameter: a listing (ordered id list for the mode)
  and a per-id fetch oracle returning either a story object or a failure
  (an exception raised inside the worker task);
* the thread pool's nondeterministic completion order (`as_completed`) is a
  parameter `order`, a permutation of the submitted id list;
* Python dicts built by iteration (`id_to_index`, `id_to_post`) are embedded
  as functional maps built by left folds in which a later insert overwrites
  an earlier one, exactly the dict-comprehension / repeated-assignment
  semantics of the source;
* rich styling (colors, bold, underline) is dropped: rows are bare string
  triples (rank, title, url), matching the cell text the source puts in the
  table.
-/

/-- The six story modes accepted by `--mode` (main.py line 93). -/
inductive Mode
  | top
  | new
  | best
  | ask
  | «show»
  | job
deriving DecidableEq

/-- `MODE_LIMITS` dict from main.py lines 82-89. -/
def MODE_LIMITS : Mode → Int
  | .top => 500
  | .new => 500
  | .best => 500
  | .ask => 200
  | .«show» => 200
  | .job => 200

/-- A story JSON object as the code reads it: optional `title` and `url`
fields (absent or JSON-null field = `none`). -/
structure Story where
  title : Option String
  url : Option String
deriving DecidableEq

/-- A table row: (rank string, title cell, url cell) — main.py lines 62, 73. -/
abbrev Row := String × String × String

/-- The canonical permalink built from the id (main.py line 65). -/
def permalink (id : Nat) : String :=
  "https://news.ycombinator.com/item?id=" ++ toString id

/-- Python truthiness of an optional string: `x or d` yields `d` when `x`
is `None` or the empty string (main.py lines 64-65). -/
def orDefault (x : Option String) (d : String) : String :=
  match x with
  | none => d
  | some s => if s = "" then d else s

/-- `story.get("title") or "<no title>"` (main.py line 64). -/
def displayTitle (story : Story) : String :=
  orDefault story.title "<no title>"

/-- `story.get("url") or f"https://news.ycombinator.com/item?id=..."`
(main.py line 65). -/
def displayUrl (story : Story) (id : Nat) : String :=
  orDefault story.url (permalink id)

/-- The row stored into `id_to_post` for one completed future:
the `except` branch stores the placeholder triple (main.py line 62), the
`else` branch stores the rendered story (main.py lines 64-73). -/
def renderRow (index : Nat) (id : Nat) (result : Except Unit Story) : Row :=
  match result with
  | .error _ => (toString index, "<RATE LIMITED>", "😭")
  | .ok story => (toString index, displayTitle story, displayUrl story id)

/-- Python `enumerate(ids, start)`: the list of `(start + position, element)`
pairs. -/
def enumFrom : Nat → List Nat → List (Nat × Nat)
  | _, [] => []
  | i, a :: t => (i, a) :: enumFrom (i + 1) t

/-- The slice `[(start - 1):(start - 1 + n)]` of the listing
(main.py line 47). -/
def window (listing : List Nat) (start n : Nat) : List Nat :=
  (listing.drop (start - 1)).take n

/-- `total_posts = len(ids)` (main.py line 49). -/
def total_posts (ids : List Nat) : Nat :=
  ids.length

/-- Insertion into a Python dict embedded as a functional map: the new
binding overwrites any earlier binding of the same key. -/
def dinsert {α : Type} (d : Nat → Option α) (k : Nat) (v : α) : Nat → Option α :=
  fun k2 => if k2 = k then some v else d k2

/-- The dict `{ id : i for i, id in enumerate(ids, start) }`
(main.py line 50), built by inserting each pair in iteration order with a
later insert overwriting an earlier one. -/
def id_to_index (ids : List Nat) (start : Nat) : Nat → Option Nat :=
  (enumFrom start ids).foldl (fun d p => dinsert d p.2 p.1) (fun _ => none)

/-- The value stored into `id_to_post` when the future for `id` completes
(main.py lines 57-73): the rank looked up in `id_to_index`, and the row
rendered from the fetch outcome.  The `.getD 0` default is dead code for ids
drawn from `ids`: every such id is a key of `id_to_index`, and a missing key
would be a KeyError in the source. -/
def post_row (ids : List Nat) (start : Nat) (fetch : Nat → Except Unit Story)
    (id : Nat) : Row :=
  renderRow ((id_to_index ids start id).getD 0) id (fetch id)

/-- The dict `id_to_post` after the fan-in loop (main.py lines 52-73): one
insert per completed future, in completion order `order`; the inserted value
for an id depends only on the id. -/
def id_to_post (ids : List Nat) (start : Nat) (fetch : Nat → Except Unit Story)
    (order : List Nat) : Nat → Option Row :=
  order.foldl (fun d id => dinsert d id (post_row ids start fetch id))
    (fun _ => none)

/-- The rows added to the table by the final loop (main.py lines 75-76):
`for id in ids: table.add_row(*id_to_post[id])`.  A `none` entry would be a
KeyError in the source; it cannot occur when `order` permutes `ids`. -/
def tableRows (ids : List Nat) (start : Nat) (fetch : Nat → Except Unit Story)
    (order : List Nat) : List (Option Row) :=
  ids.map (fun id => id_to_post ids start fetch order id)

/-- `get_stories` (main.py lines 33-79): slice the listing to the requested
window, then produce the table rows from the per-id results. -/
def get_stories (listing : List Nat) (fetch : Nat → Except Unit Story)
    (n : Nat) (start : Nat) (order : List Nat) : List (Option Row) :=
  tableRows (window listing start n) start fetch order

/-- `main` (main.py lines 81-113): the three validation checks in order
(lines 106-111), then the call to `get_stories`.  `parser.error` prints a
usage message and exits non-zero; it is embedded as `Except.error`.  The
error branches never touch `listing`, `fetch` or `order`: no network call
happens on a validation failure. -/
def mainRun (mode : Mode) (start num : Int) (listing : List Nat)
    (fetch : Nat → Except Unit Story) (order : List Nat) :
    Except String (List (Option Row)) :=
  if start < 1 then .error "--start/-s must be at least 1."
  else if num < 1 then .error "--num/-n must be at least 1."
  else if MODE_LIMITS mode < start + num - 1 then
    .error "The sum of start and num minus 1 must not exceed the API limit."
  else .ok (get_stories listing fetch num.toNat start.toNat order)

/-- Rate-limiter gate state, abstracted to the number of admissions: each
call admitted through the `rate_limit` gate updates the shared last-call
timestamp (main.py line 27), embedded as one increment per admission. -/
abbrev GateCount := Nat

/-- `get_article_by_id` (main.py lines 38-40): decorated with
`@rate_limit(10)`, so each call passes through the gate (incrementing the
admission count) and then performs the item request. -/
def get_article_by_id (fetch : Nat → Except Unit Story) (id : Nat)
    (g : GateCount) : Except Unit Story × GateCount :=
  (fetch id, g + 1)

/-- The listing request of `get_stories` (main.py line 47): a plain
`requests.get` with no `rate_limit` decorator, so the gate state passes
through unchanged. -/
def fetchIds (listing : List Nat) (start n : Nat) (g : GateCount) :
    List Nat × GateCount :=
  ((listing.drop (start - 1)).take n, g)

/-- `get_stories` with the rate-limiter gate state threaded through: the
listing request first, then one gated `get_article_by_id` call per submitted
task (in completion order). -/
def get_stories_gated (listing : List Nat) (fetch : Nat → Except Unit Story)
    (n : Nat) (start : Nat) (order : List Nat) (g : GateCount) :
    List (Option Row) × GateCount :=
  let idsg := fetchIds listing start n g
  let g2 := order.foldl (fun g1 id => (get_article_by_id fetch id g1).2) idsg.2
  (tableRows idsg.1 start fetch order, g2)

/-- Statement helper (not from the source): the index of the last occurrence
of `id` in `ids`, if any. -/
def lastIdxOf (ids : List Nat) (id : Nat) : Option Nat :=
  match ids with
  | [] => none
  | a :: t =>
    match lastIdxOf t id with
    | some j => some (j + 1)
    | none => if a = id then some 0 else none

/-! ## Dictionary-fold lemmas -/

/-- Evaluating a fold of overwriting inserts with an arbitrary starting
dictionary: the starting dictionary is consulted exactly when no pair of the
list binds the key. -/
theorem foldl_dinsert_pairs_acc :
    ∀ (l : List (Nat × Nat)) (d0 : Nat → Option Nat) (k : Nat),
      l.foldl (fun d p => dinsert d p.2 p.1) d0 k
        = match l.foldl (fun d p => dinsert d p.2 p.1) (fun _ => none) k with
          | some v => some v
          | none => d0 k := by
  intro l
  induction l with
  | nil => intro d0 k; rfl
  | cons p t ih =>
    intro d0 k
    show (t.foldl (fun d p => dinsert d p.2 p.1) (dinsert d0 p.2 p.1)) k = _
    rw [ih (dinsert d0 p.2 p.1) k]
    show _ = match (t.foldl (fun d p => dinsert d p.2 p.1) (dinsert (fun _ => none) p.2 p.1)) k with
      | some v => some v
      | none => d0 k
    rw [ih (dinsert (fun _ => none) p.2 p.1) k]
    cases hC : (t.foldl (fun d p => dinsert d p.2 p.1) (fun _ => none)) k with
    | some v => rfl
    | none =>
      simp only [dinsert]
      by_cases hk : k = p.2 <;> simp [hk]

/-- Unfolding `id_to_index` over a cons cell: the tail's dictionary (built
with ranks shifted by one) wins over the head's binding. -/
theorem id_to_index_cons (a : Nat) (t : List Nat) (start k : Nat) :
    id_to_index (a :: t) start k
      = match id_to_index t (start + 1) k with
        | some v => some v
        | none => if k = a then some start else none := by
  show (enumFrom (start + 1) t).foldl (fun d p => dinsert d p.2 p.1)
      (dinsert (fun _ => none) a start) k = _
  rw [foldl_dinsert_pairs_acc (enumFrom (start + 1) t) (dinsert (fun _ => none) a start) k]
  cases hC : id_to_index t (start + 1) k with
  | some v =>
    have : (enumFrom (start + 1) t).foldl (fun d p => dinsert d p.2 p.1) (fun _ => none) k = some v := hC
    rw [this]
  | none =>
    have : (enumFrom (start + 1) t).foldl (fun d p => dinsert d p.2 p.1) (fun _ => none) k = none := hC
    rw [this]
    simp [dinsert]

/-- The dict of ranks maps each id to `start` plus the index of its last
occurrence in the window. -/
theorem id_to_index_eq :
    ∀ (ids : List Nat) (start k : Nat),
      id_to_index ids start k = (lastIdxOf ids k).map (fun j => start + j) := by
  intro ids
  induction ids with
  | nil => intro start k; rfl
  | cons a t ih =>
    intro start k
    rw [id_to_index_cons, ih (start + 1) k]
    show _ = (lastIdxOf (a :: t) k).map (fun j => start + j)
    rw [lastIdxOf]
    cases hC : lastIdxOf t k with
    | some j =>
      have h1 : start + 1 + j = start + (j + 1) := by omega
      simp [h1]
    | none =>
      by_cases hk : a = k
      · subst hk; simp
      · have hk2 : ¬ k = a := fun h => hk h.symm
        simp [hk, hk2]

/-- A fold of overwriting inserts whose inserted value depends only on the
key: the result binds exactly the keys that occur in the iteration, each to
its (unique) value. -/
theorem foldl_dinsert_fun {α : Type} (v : Nat → α) :
    ∀ (order : List Nat) (d0 : Nat → Option α) (k : Nat),
      order.foldl (fun d id => dinsert d id (v id)) d0 k
        = if k ∈ order then some (v k) else d0 k := by
  intro order
  induction order with
  | nil => intro d0 k; simp
  | cons a t ih =>
    intro d0 k
    show t.foldl (fun d id => dinsert d id (v id)) (dinsert d0 a (v a)) k = _
    rw [ih (dinsert d0 a (v a)) k]
    by_cases ht : k ∈ t
    · simp [ht]
    · by_cases hk : k = a
      · subst hk; simp [ht, dinsert]
      · simp [ht, hk, dinsert]

/-- Closed form of the `id_to_post` dict: an id fetched at some point of the
completion order is bound to its (order-independent) row; any other key is
absent. -/
theorem id_to_post_eq (ids : List Nat) (start : Nat)
    (fetch : Nat → Except Unit Story) (order : List Nat) (k : Nat) :
    id_to_post ids start fetch order k
      = if k ∈ order then some (post_row ids start fetch k) else none :=
  foldl_dinsert_fun (post_row ids start fetch) order (fun _ => none) k

/-! ## Last-occurrence index lemmas -/

/-- `lastIdxOf` finds an index exactly for the members of the list. -/
theorem lastIdxOf_eq_none_iff :
    ∀ (ids : List Nat) (k : Nat), lastIdxOf ids k = none ↔ k ∉ ids := by
  intro ids
  induction ids with
  | nil => intro k; simp [lastIdxOf]
  | cons a t ih =>
    intro k
    rw [lastIdxOf]
    cases hC : lastIdxOf t k with
    | some j =>
      have : k ∈ t := by
        by_contra hk
        rw [← ih k] at hk
        rw [hC] at hk
        exact Option.some_ne_none j hk
      simp [this]
    | none =>
      have hkt : k ∉ t := (ih k).mp hC
      by_cases hk : a = k
      · subst hk; simp
      · have : k ≠ a := fun h => hk h.symm
        simp [hkt, this, hk]

/-- The index found by `lastIdxOf` is in range and carries the sought id. -/
theorem lastIdxOf_getElem :
    ∀ (ids : List Nat) (k j : Nat), lastIdxOf ids k = some j →
      j < ids.length ∧ ids[j]? = some k := by
  intro ids
  induction ids with
  | nil => intro k j h; simp [lastIdxOf] at h
  | cons a t ih =>
    intro k j h
    rw [lastIdxOf] at h
    cases hC : lastIdxOf t k with
    | some j2 =>
      rw [hC] at h
      have hj : j = j2 + 1 := by
        simpa using h.symm
      subst hj
      have := ih k j2 hC
      constructor
      · simp; omega
      · simpa using this.2
    | none =>
      rw [hC] at h
      by_cases hk : a = k
      · subst hk
        simp at h
        subst h
        simp
      · simp [hk] at h

/-- No occurrence of the id lies strictly after the index found by
`lastIdxOf`. -/
theorem lastIdxOf_last :
    ∀ (ids : List Nat) (k j : Nat), lastIdxOf ids k = some j →
      ∀ m, j < m → ids[m]? ≠ some k := by
  intro ids
  induction ids with
  | nil => intro k j h; simp [lastIdxOf] at h
  | cons a t ih =>
    intro k j h m hm
    rw [lastIdxOf] at h
    cases hC : lastIdxOf t k with
    | some j2 =>
      rw [hC] at h
      have hj : j = j2 + 1 := by simpa using h.symm
      subst hj
      cases m with
      | zero => omega
      | succ m2 =>
        have : t[m2]? ≠ some k := ih k j2 hC m2 (by omega)
        simpa using this
    | none =>
      rw [hC] at h
      by_cases hk : a = k
      · subst hk
        simp at h
        subst h
        cases m with
        | zero => omega
        | succ m2 =>
          have hkt : a ∉ t := (lastIdxOf_eq_none_iff t a).mp hC
          simp only [List.getElem?_cons_succ]
          intro hbad
          exact hkt (List.getElem?_mem hbad)
      · simp [hk] at h

/-- On a duplicate-free list, the last occurrence of the element at index
`i` is `i` itself. -/
theorem lastIdxOf_nodup :
    ∀ (ids : List Nat) (i id : Nat), ids.Nodup → ids[i]? = some id →
      lastIdxOf ids id = some i := by
  intro ids
  induction ids with
  | nil => intro i id _ h; simp at h
  | cons a t ih =>
    intro i id hnd h
    rw [lastIdxOf]
    cases i with
    | zero =>
      simp at h
      subst h
      have hat : a ∉ t := (List.nodup_cons.mp hnd).1
      rw [(lastIdxOf_eq_none_iff t a).mpr hat]
      simp
    | succ i2 =>
      simp only [List.getElem?_cons_succ] at h
      have hndt : t.Nodup := (List.nodup_cons.mp hnd).2
      rw [ih i2 id hndt h]

/-! ## Table-row lemmas -/

/-- One row is added per id of the window, whatever the fetch outcomes or
the completion order. -/
theorem tableRows_length (ids : List Nat) (start : Nat)
    (fetch : Nat → Except Unit Story) (order : List Nat) :
    (tableRows ids start fetch order).length = ids.length := by
  simp [tableRows]

/-- Pointwise description of the output: if every submitted id completes,
the row at position `i` is the (completion-order independent) row of the id
at position `i` of the window. -/
theorem tableRows_getElem (ids : List Nat) (start : Nat)
    (fetch : Nat → Except Unit Story) (order : List Nat)
    (hmem : ∀ x, x ∈ ids → x ∈ order) (i id : Nat) (hid : ids[i]? = some id) :
    (tableRows ids start fetch order)[i]? = some (some (post_row ids start fetch id)) := by
  have hmap : (tableRows ids start fetch order)[i]?
      = (ids[i]?).map (fun id => id_to_post ids start fetch order id) := by
    simp [tableRows]
  rw [hmap, hid]
  show some (id_to_post ids start fetch order id) = _
  rw [id_to_post_eq]
  have : id ∈ order := hmem id (List.getElem?_mem hid)
  simp [this]

/-- On a duplicate-free window, the row value for the id at position `i`
carries rank `start + i`. -/
theorem post_row_nodup (ids : List Nat) (start : Nat)
    (fetch : Nat → Except Unit Story) (i id : Nat)
    (hnd : ids.Nodup) (hid : ids[i]? = some id) :
    post_row ids start fetch id = renderRow (start + i) id (fetch id) := by
  rw [post_row, id_to_index_eq, lastIdxOf_nodup ids i id hnd hid]
  rfl

/-- Both branches of the row constructor display the rank string in the
first column. -/
theorem renderRow_fst (index id : Nat) (result : Except Unit Story) :
    (renderRow index id result).1 = toString index := by
  cases result <;> rfl

/-! ## Injectivity of the decimal rank string

`str(index)` in the source renders the rank in decimal; two distinct ranks
always render to distinct strings.  This is proved for `Nat.repr`, the
decimal rendering behind `toString` on `Nat`. -/

/-- Fuel-free decimal digit list (most significant digit first); the
counterpart of the fuel-driven core function behind `Nat.repr`. -/
def decRepr (n : Nat) : List Char :=
  if h : n / 10 = 0 then [Nat.digitChar (n % 10)]
  else decRepr (n / 10) ++ [Nat.digitChar (n % 10)]
decreasing_by
  have h10 : 10 ≤ n := by
    by_contra hb
    exact h (Nat.div_eq_of_lt (by omega))
  exact Nat.div_lt_self (by omega) (by omega)

/-- With enough fuel, the core digit accumulator computes `decRepr`. -/
theorem toDigitsCore_eq_decRepr :
    ∀ (fuel n : Nat) (ds : List Char), n < fuel →
      Nat.toDigitsCore 10 fuel n ds = decRepr n ++ ds := by
  intro fuel
  induction fuel with
  | zero => intro n ds h; omega
  | succ f ih =>
    intro n ds h
    rw [decRepr]
    by_cases h0 : n / 10 = 0
    · simp [Nat.toDigitsCore, h0]
    · have h10 : 10 ≤ n := by
        by_contra hb
        exact h0 (Nat.div_eq_of_lt (by omega))
      have hlt : n / 10 < f := by
        have : n / 10 < n := Nat.div_lt_self (by omega) (by omega)
        omega
      simp only [Nat.toDigitsCore, h0, if_false]
      rw [ih (n / 10) (Nat.digitChar (n % 10) :: ds) hlt]
      simp [h0]

/-- `Nat.repr` is the string of the fuel-free digit list. -/
theorem natRepr_eq_decRepr (n : Nat) : Nat.repr n = (decRepr n).asString := by
  show (Nat.toDigits 10 n).asString = _
  rw [Nat.toDigits, toDigitsCore_eq_decRepr (n + 1) n [] (by omega),
    List.append_nil]

/-- Numeric value of a decimal digit character produced by
`Nat.digitChar`. -/
def charVal (c : Char) : Nat :=
  if c = '0' then 0 else if c = '1' then 1 else if c = '2' then 2 else
  if c = '3' then 3 else if c = '4' then 4 else if c = '5' then 5 else
  if c = '6' then 6 else if c = '7' then 7 else if c = '8' then 8 else 9

/-- Value of a decimal digit list (most significant digit first). -/
def decVal (l : List Char) : Nat :=
  l.foldl (fun acc c => acc * 10 + charVal c) 0

theorem charVal_digitChar (d : Nat) (h : d < 10) :
    charVal (Nat.digitChar d) = d := by
  interval_cases d <;> decide

/-- Reading back the digit list recovers the number: the decimal rendering
is lossless. -/
theorem decVal_decRepr (n : Nat) : decVal (decRepr n) = n := by
  induction n using Nat.strong_induction_on with
  | _ n ih =>
    rw [decRepr]
    by_cases h0 : n / 10 = 0
    · simp only [h0, dif_pos]
      have hm : n % 10 < 10 := Nat.mod_lt n (by omega)
      simp [decVal, charVal_digitChar (n % 10) hm]
      omega
    · rw [dif_neg h0]
      have h10 : 10 ≤ n := by
        by_contra hb
        exact h0 (Nat.div_eq_of_lt (by omega))
      have hlt : n / 10 < n := Nat.div_lt_self (by omega) (by omega)
      have hm : n % 10 < 10 := Nat.mod_lt n (by omega)
      rw [decVal, List.foldl_append]
      have : (decRepr (n / 10)).foldl (fun acc c => acc * 10 + charVal c) 0
          = n / 10 := ih (n / 10) hlt
      rw [this]
      simp [charVal_digitChar (n % 10) hm]
      omega

/-- Distinct ranks render to distinct strings. -/
theorem natStr_inj (a b : Nat) (h : toString a = toString b) : a = b := by
  have ha : Nat.repr a = Nat.repr b := h
  rw [natRepr_eq_decRepr, natRepr_eq_decRepr] at ha
  have hl : decRepr a = decRepr b := by
    have := congrArg String.data ha
    simpa [List.asString] using this
  have := congrArg decVal hl
  rw [decVal_decRepr, decVal_decRepr] at this
  exact this

/-! ## Claim theorems -/

/-- C1: for every valid combination (mode, start, num) that passes
validation, and a listing (of pairwise-distinct ids, as story ids are) long
enough to fill the window, the orchestrator slices the listing to the
half-open window `[start-1, start-1+num)`, requests exactly `num` ids
starting at rank `start`, and the output has exactly `num` rows whose
displayed ranks are the decimal renderings of `start, start+1, ...,
start+num-1` in that (ascending) order: row `i` is the rendered row of the
window's id at position `i` with rank `start + i`. -/
theorem C1_valid_window_rows (mode : Mode) (listing : List Nat)
    (fetch : Nat → Except Unit Story) (start num : Nat) (order : List Nat)
    (hs : 1 ≤ start) (hn : 1 ≤ num)
    (hlim : (start : Int) + (num : Int) - 1 ≤ MODE_LIMITS mode)
    (hlen : start - 1 + num ≤ listing.length)
    (hnd : listing.Nodup)
    (hord : order.Perm (window listing start num)) :
    window listing start num = (listing.drop (start - 1)).take num
    ∧ (window listing start num).length = num
    ∧ (get_stories listing fetch num start order).length = num
    ∧ (∀ i id, (window listing start num)[i]? = some id →
        (get_stories listing fetch num start order)[i]?
          = some (some (renderRow (start + i) id (fetch id)))) := by
  have hw : (window listing start num).length = num := by
    simp only [window, List.length_take, List.length_drop]
    omega
  refine ⟨rfl, hw, ?_, ?_⟩
  · rw [get_stories, tableRows_length]
    exact hw
  · intro i id hid
    have hnd2 : (window listing start num).Nodup :=
      List.Nodup.sublist
        ((List.take_sublist _ _).trans (List.drop_sublist _ _)) hnd
    have hmem : ∀ x, x ∈ window listing start num → x ∈ order :=
      fun x hx => hord.mem_iff.mpr hx
    rw [get_stories,
      tableRows_getElem (window listing start num) start fetch order hmem i id hid,
      post_row_nodup (window listing start num) start fetch i id hnd2 hid]

/-- Witness for C1 at mode `top`, listing `[101, 102, 103]`, `start = 1`,
`num = 2`, completion order `[102, 101]`. -/
theorem C1_valid_window_rows_witness :
    ([102, 101].Perm (window [101, 102, 103] 1 2))
    ∧ ((window [101, 102, 103] 1 2).length = 2
      ∧ (get_stories [101, 102, 103]
          (fun _ => Except.ok (Story.mk (some "t") (some "u"))) 2 1 [102, 101]).length = 2
      ∧ (∀ i id, (window [101, 102, 103] 1 2)[i]? = some id →
          (get_stories [101, 102, 103]
              (fun _ => Except.ok (Story.mk (some "t") (some "u"))) 2 1 [102, 101])[i]?
            = some (some (renderRow (1 + i) id
                (Except.ok (Story.mk (some "t") (some "u"))))))) :=
  ⟨by decide,
    (C1_valid_window_rows Mode.top [101, 102, 103]
      (fun _ => Except.ok (Story.mk (some "t") (some "u"))) 1 2 [102, 101]
      (by decide) (by decide) (by decide) (by decide) (by decide) (by decide)).2⟩

/-- C2: validation of the CLI arguments: `start < 1`, `num < 1`, or
`start + num - 1` above the mode's limit each yield a usage error
(`parser.error`, a non-zero exit) whose value does not depend on the
external API at all (no network call); valid arguments reach
`get_stories`. -/
theorem C2_validation (mode : Mode) (start num : Int) :
    ((start < 1 ∨ num < 1 ∨ MODE_LIMITS mode < start + num - 1) →
      ∀ listing fetch order listing2 fetch2 order2,
        (∃ msg, mainRun mode start num listing fetch order = Except.error msg)
        ∧ mainRun mode start num listing fetch order
            = mainRun mode start num listing2 fetch2 order2)
    ∧ (1 ≤ start → 1 ≤ num → start + num - 1 ≤ MODE_LIMITS mode →
      ∀ listing fetch order,
        mainRun mode start num listing fetch order
          = Except.ok (get_stories listing fetch num.toNat start.toNat order)) := by
  constructor
  · intro hbad listing fetch order listing2 fetch2 order2
    by_cases h1 : start < 1
    · exact ⟨⟨"--start/-s must be at least 1.", by simp [mainRun, h1]⟩,
        by simp [mainRun, h1]⟩
    · by_cases h2 : num < 1
      · exact ⟨⟨"--num/-n must be at least 1.", by simp [mainRun, h1, h2]⟩,
          by simp [mainRun, h1, h2]⟩
      · have h3 : MODE_LIMITS mode < start + num - 1 := by
          rcases hbad with h | h | h
          · omega
          · omega
          · exact h
        exact ⟨⟨"The sum of start and num minus 1 must not exceed the API limit.",
            by simp [mainRun, h1, h2, h3]⟩,
          by simp [mainRun, h1, h2, h3]⟩
  · intro hs hn hlim listing fetch order
    have h1 : ¬ start < 1 := by omega
    have h2 : ¬ num < 1 := by omega
    have h3 : ¬ MODE_LIMITS mode < start + num - 1 := by omega
    simp [mainRun, h1, h2, h3]

/-- Witness for C2 at the boundary cases of the claim: `start=1, num=500,
mode=top` passes validation; `num=501`, `start=0` and `num=0` fail it. -/
theorem C2_validation_witness :
    (mainRun Mode.top 1 500 [] (fun _ => Except.error ()) []
      = Except.ok (get_stories [] (fun _ => Except.error ()) 500 1 []))
    ∧ (∃ msg, mainRun Mode.top 1 501 [] (fun _ => Except.error ()) []
        = Except.error msg)
    ∧ (∃ msg, mainRun Mode.top 0 50 [] (fun _ => Except.error ()) []
        = Except.error msg)
    ∧ (∃ msg, mainRun Mode.top 1 0 [] (fun _ => Except.error ()) []
        = Except.error msg) := by
  refine ⟨?_, ?_, ?_, ?_⟩
  · exact (C2_validation Mode.top 1 500).2 (by decide) (by decide) (by decide)
      [] (fun _ => Except.error ()) []
  · exact ((C2_validation Mode.top 1 501).1 (Or.inr (Or.inr (by decide)))
      [] (fun _ => Except.error ()) [] [] (fun _ => Except.error ()) []).1
  · exact ((C2_validation Mode.top 0 50).1 (Or.inl (by decide))
      [] (fun _ => Except.error ()) [] [] (fun _ => Except.error ()) []).1
  · exact ((C2_validation Mode.top 1 0).1 (Or.inr (Or.inl (by decide)))
      [] (fun _ => Except.error ()) [] [] (fun _ => Except.error ()) []).1

/-- C3: for any subset of per-item fetch tasks that fail, exactly the rows
for those ids become the fixed placeholder triple, every other row shows the
fetched title and url, a row depends only on its own id's fetch outcome
(sibling fetches are unaffected), and the row count equals the window size
whatever the fetch outcomes — so it is the same as if no fetch had failed.
The listing request and the bounds check are the only aborts: the embedded
orchestrator is total in `fetch`. -/
theorem C3_partial_failure (ids : List Nat) (start : Nat)
    (fetch fetch2 : Nat → Except Unit Story) (order : List Nat)
    (hnd : ids.Nodup) (hord : order.Perm ids) :
    (tableRows ids start fetch order).length = ids.length
    ∧ (∀ (i id : Nat), ids[i]? = some id → fetch id = Except.error () →
        (tableRows ids start fetch order)[i]?
          = some (some (toString (start + i), "<RATE LIMITED>", "😭")))
    ∧ (∀ (i id : Nat) (story : Story), ids[i]? = some id → fetch id = Except.ok story →
        (tableRows ids start fetch order)[i]?
          = some (some (toString (start + i), displayTitle story,
              displayUrl story id)))
    ∧ (∀ (i id : Nat), ids[i]? = some id → fetch id = fetch2 id →
        (tableRows ids start fetch order)[i]?
          = (tableRows ids start fetch2 order)[i]?) := by
  have hmem : ∀ x, x ∈ ids → x ∈ order := fun x hx => hord.mem_iff.mpr hx
  refine ⟨tableRows_length ids start fetch order, ?_, ?_, ?_⟩
  · intro i id hid hf
    rw [tableRows_getElem ids start fetch order hmem i id hid,
      post_row_nodup ids start fetch i id hnd hid, hf]
    rfl
  · intro i id story hid hf
    rw [tableRows_getElem ids start fetch order hmem i id hid,
      post_row_nodup ids start fetch i id hnd hid, hf]
    rfl
  · intro i id hid hf
    rw [tableRows_getElem ids start fetch order hmem i id hid,
      tableRows_getElem ids start fetch2 order hmem i id hid,
      post_row_nodup ids start fetch i id hnd hid,
      post_row_nodup ids start fetch2 i id hnd hid, hf]

/-- Witness for C3 on the spec's example shape: ids `[101, 102, 103]`, the
fetch of `102` fails, the others succeed. -/
theorem C3_partial_failure_witness :
    ([101, 102, 103] : List Nat).Nodup
    ∧ ((tableRows [101, 102, 103] 1
        (fun id => if id = 102 then Except.error ()
          else Except.ok (Story.mk (some "t") (some "u"))) [103, 101, 102]).length = 3
      ∧ (∀ (i id : Nat), ([101, 102, 103] : List Nat)[i]? = some id →
          (if id = 102 then (Except.error () : Except Unit Story)
            else Except.ok (Story.mk (some "t") (some "u"))) = Except.error () →
          (tableRows [101, 102, 103] 1
            (fun id => if id = 102 then Except.error ()
              else Except.ok (Story.mk (some "t") (some "u"))) [103, 101, 102])[i]?
            = some (some (toString (1 + i), "<RATE LIMITED>", "😭")))
      ∧ (∀ (i id : Nat) (story : Story), ([101, 102, 103] : List Nat)[i]? = some id →
          (if id = 102 then (Except.error () : Except Unit Story)
            else Except.ok (Story.mk (some "t") (some "u"))) = Except.ok story →
          (tableRows [101, 102, 103] 1
            (fun id => if id = 102 then Except.error ()
              else Except.ok (Story.mk (some "t") (some "u"))) [103, 101, 102])[i]?
            = some (some (toString (1 + i), displayTitle story,
                displayUrl story id)))
      ∧ (∀ (i id : Nat), ([101, 102, 103] : List Nat)[i]? = some id →
          (if id = 102 then (Except.error () : Except Unit Story)
            else Except.ok (Story.mk (some "t") (some "u")))
            = (if id = 102 then (Except.error () : Except Unit Story)
              else Except.ok (Story.mk (some "t") (some "u"))) →
          (tableRows [101, 102, 103] 1
            (fun id => if id = 102 then Except.error ()
              else Except.ok (Story.mk (some "t") (some "u"))) [103, 101, 102])[i]?
            = (tableRows [101, 102, 103] 1
              (fun id => if id = 102 then Except.error ()
                else Except.ok (Story.mk (some "t") (some "u"))) [103, 101, 102])[i]?)) :=
  ⟨by decide,
    C3_partial_failure [101, 102, 103] 1
      (fun id => if id = 102 then Except.error ()
        else Except.ok (Story.mk (some "t") (some "u")))
      (fun id => if id = 102 then Except.error ()
        else Except.ok (Story.mk (some "t") (some "u")))
      [103, 101, 102] (by decide) (by decide)⟩

/-- C4: with a fixed external API (fixed listing and fixed per-id
outcomes), the final output is the same for any two completion orders of
the fetch tasks: output order depends only on the resolved id list, never
on completion order; hence repeated runs with identical arguments produce
identical tables. -/
theorem C4_order_independence (listing : List Nat)
    (fetch : Nat → Except Unit Story) (n start : Nat)
    (order1 order2 : List Nat)
    (h1 : order1.Perm (window listing start n))
    (h2 : order2.Perm (window listing start n)) :
    get_stories listing fetch n start order1
      = get_stories listing fetch n start order2 := by
  have hfun : (fun id => id_to_post (window listing start n) start fetch order1 id)
      = (fun id => id_to_post (window listing start n) start fetch order2 id) := by
    funext k
    rw [id_to_post_eq, id_to_post_eq]
    have hiff : k ∈ order1 ↔ k ∈ order2 := by
      rw [h1.mem_iff, h2.mem_iff]
    by_cases hk : k ∈ order1
    · simp [hk, hiff.mp hk]
    · have hk2 : k ∉ order2 := fun hh => hk (hiff.mpr hh)
      simp [hk, hk2]
  rw [get_stories, get_stories, tableRows, tableRows, hfun]

/-- Witness for C4: two different completion orders of the window
`[101, 102]`. -/
theorem C4_order_independence_witness :
    ([101, 102].Perm (window [101, 102, 103] 1 2))
    ∧ get_stories [101, 102, 103] (fun _ => Except.error ()) 2 1 [101, 102]
        = get_stories [101, 102, 103] (fun _ => Except.error ()) 2 1 [102, 101] :=
  ⟨by decide,
    C4_order_independence [101, 102, 103] (fun _ => Except.error ()) 2 1
      [101, 102] [102, 101] (by decide) (by decide)⟩

/-- C5: on a duplicate-free window, the id at position `i` is assigned rank
`start + i` in the rank dict built once at resolution time (main.py line
50), and that rank (in decimal) is what its output row displays in the
first column. -/
theorem C5_rank_assignment (ids : List Nat) (start : Nat)
    (fetch : Nat → Except Unit Story) (order : List Nat)
    (hnd : ids.Nodup) (hord : order.Perm ids) (i id : Nat)
    (hid : ids[i]? = some id) :
    id_to_index ids start id = some (start + i)
    ∧ (tableRows ids start fetch order)[i]?
        = some (some (renderRow (start + i) id (fetch id)))
    ∧ (renderRow (start + i) id (fetch id)).1 = toString (start + i) := by
  refine ⟨?_, ?_, renderRow_fst (start + i) id (fetch id)⟩
  · rw [id_to_index_eq, lastIdxOf_nodup ids i id hnd hid]
    rfl
  · have hmem : ∀ x, x ∈ ids → x ∈ order := fun x hx => hord.mem_iff.mpr hx
    rw [tableRows_getElem ids start fetch order hmem i id hid,
      post_row_nodup ids start fetch i id hnd hid]

/-- Witness for C5 at window `[101, 102]`, `start = 4`, position 1. -/
theorem C5_rank_assignment_witness :
    (([101, 102] : List Nat)[1]? = some 102)
    ∧ (id_to_index [101, 102] 4 102 = some 5
      ∧ (tableRows [101, 102] 4 (fun _ => Except.error ()) [102, 101])[1]?
          = some (some (renderRow 5 102 (Except.error ())))
      ∧ (renderRow 5 102 (Except.error ())).1 = toString 5) :=
  ⟨by decide,
    C5_rank_assignment [101, 102] 4 (fun _ => Except.error ()) [102, 101]
      (by decide) (by decide) 1 102 (by decide)⟩

/-- Counterexample to C6 as stated: a story whose `title` field is PRESENT
but equal to the empty string does not get its value displayed — Python's
`or` treats the empty string as falsy, so the default is shown instead. -/
theorem C6_counterexample :
    (Story.mk (some "") none).title = some ""
    ∧ displayTitle (Story.mk (some "") none) = "<no title>"
    ∧ ("" : String) ≠ "<no title>"
    ∧ (Story.mk none (some "")).url = some ""
    ∧ displayUrl (Story.mk none (some "")) 5 = permalink 5
    ∧ ("" : String) ≠ permalink 5 := by
  refine ⟨rfl, by decide, by decide, rfl, by decide, by decide⟩

/-- C6 amended: for a successfully fetched story, an absent or EMPTY title
displays the fixed default string, an absent or EMPTY url displays the
canonical permalink built from the id, and a present non-empty field
displays its value (Python `or` truthiness). -/
theorem C6_display_defaults (story : Story) (id : Nat) :
    ((story.title = none ∨ story.title = some "") →
      displayTitle story = "<no title>")
    ∧ (∀ t, story.title = some t → t ≠ "" → displayTitle story = t)
    ∧ ((story.url = none ∨ story.url = some "") →
      displayUrl story id = permalink id)
    ∧ (∀ u, story.url = some u → u ≠ "" → displayUrl story id = u) := by
  refine ⟨?_, ?_, ?_, ?_⟩
  · intro h
    rcases h with h | h <;> simp [displayTitle, orDefault, h]
  · intro t ht hne
    simp [displayTitle, orDefault, ht, hne]
  · intro h
    rcases h with h | h <;> simp [displayUrl, orDefault, h]
  · intro u hu hne
    simp [displayUrl, orDefault, hu, hne]

/-- Witness for the amended C6 on a story with a present non-empty title
and an absent url. -/
theorem C6_display_defaults_witness :
    displayTitle (Story.mk (some "a") none) = "a"
    ∧ displayUrl (Story.mk (some "a") none) 7 = permalink 7 :=
  ⟨(C6_display_defaults (Story.mk (some "a") none) 7).2.1 "a" rfl (by decide),
    (C6_display_defaults (Story.mk (some "a") none) 7).2.2.1 (Or.inl rfl)⟩

/-- The fan-in loop admits one gated call per completed task. -/
theorem foldl_gate_count (fetch : Nat → Except Unit Story) :
    ∀ (order : List Nat) (g : GateCount),
      order.foldl (fun g1 id => (get_article_by_id fetch id g1).2) g
        = g + order.length := by
  intro order
  induction order with
  | nil => intro g; simp
  | cons a t ih =>
    intro g
    show t.foldl (fun g1 id => (get_article_by_id fetch id g1).2) (g + 1) = _
    rw [ih (g + 1)]
    simp only [List.length_cons]
    exact Nat.add_right_comm g 1 t.length ▸ rfl

/-- C8: only the per-item fetch passes through the rate-limiter gate: the
listing request leaves the gate state unchanged (it is issued without
consulting the limiter), every per-item fetch passes through it exactly
once, and threading the gate state does not change the produced rows. -/
theorem C8_listing_not_gated (listing : List Nat) (start n : Nat)
    (fetch : Nat → Except Unit Story) (order : List Nat) (g : GateCount) :
    (fetchIds listing start n g).2 = g
    ∧ (get_stories_gated listing fetch n start order g).2 = g + order.length
    ∧ (get_stories_gated listing fetch n start order g).1
        = get_stories listing fetch n start order := by
  exact ⟨rfl, foldl_gate_count fetch order g, rfl⟩

/-- C9: when the listing holds fewer than `start - 1 + num` ids, the slice
silently yields only the available ids (possibly zero), no error is raised,
and both the progress total (`total_posts`) and the number of output rows
equal the length of that shorter slice rather than `num`; every produced
row is a present entry (no KeyError). -/
theorem C9_short_listing (listing : List Nat) (fetch : Nat → Except Unit Story)
    (num start : Nat) (order : List Nat)
    (hs : 1 ≤ start) (hshort : listing.length < start - 1 + num)
    (hord : order.Perm (window listing start num)) :
    (window listing start num).length = listing.length - (start - 1)
    ∧ total_posts (window listing start num) = listing.length - (start - 1)
    ∧ (get_stories listing fetch num start order).length
        = listing.length - (start - 1)
    ∧ ∀ r ∈ get_stories listing fetch num start order, r.isSome := by
  have hw : (window listing start num).length = listing.length - (start - 1) := by
    simp only [window, List.length_take, List.length_drop]
    omega
  refine ⟨hw, hw, ?_, ?_⟩
  · rw [get_stories, tableRows_length]
    exact hw
  · intro r hr
    rw [get_stories, tableRows] at hr
    rcases List.mem_map.mp hr with ⟨id, hidmem, hrow⟩
    rw [← hrow, id_to_post_eq]
    have : id ∈ order := hord.mem_iff.mpr hidmem
    simp [this]

/-- Witness for C9: listing `[101, 102]`, `start = 2`, `num = 5`: only one
id is available. -/
theorem C9_short_listing_witness :
    ([102] : List Nat).Perm (window [101, 102] 2 5)
    ∧ ((window [101, 102] 2 5).length = 1
      ∧ total_posts (window [101, 102] 2 5) = 1
      ∧ (get_stories [101, 102] (fun _ => Except.error ()) 5 2 [102]).length = 1
      ∧ ∀ r ∈ get_stories [101, 102] (fun _ => Except.error ()) 5 2 [102], r.isSome) :=
  ⟨by decide,
    C9_short_listing [101, 102] (fun _ => Except.error ()) 5 2 [102]
      (by decide) (by decide) (by decide)⟩

/-- Every member of the list has a last occurrence. -/
theorem lastIdxOf_isSome_of_mem (ids : List Nat) (id : Nat) (h : id ∈ ids) :
    ∃ j, lastIdxOf ids id = some j := by
  cases hcase : lastIdxOf ids id with
  | none => exact absurd h ((lastIdxOf_eq_none_iff ids id).mp hcase)
  | some j => exact ⟨j, rfl⟩

/-- C10: if the resolved window contains the same id at several positions,
the output still has one row per position, but every row of that id shows
the rank of the id's LAST occurrence (`start + j` for the largest `j`
holding the id) together with the one shared fetch result — both are looked
up in dicts keyed by the id, so later insertions overwrote earlier ones —
and the decimal rank of an occurrence that has a later duplicate appears in
no row at all. -/
theorem C10_duplicate_ids (ids : List Nat) (start : Nat)
    (fetch : Nat → Except Unit Story) (order : List Nat)
    (hord : order.Perm ids) :
    (tableRows ids start fetch order).length = ids.length
    ∧ (∀ (i id : Nat), ids[i]? = some id →
        ∃ j, lastIdxOf ids id = some j
          ∧ i ≤ j ∧ j < ids.length ∧ ids[j]? = some id
          ∧ (∀ m, j < m → ids[m]? ≠ some id)
          ∧ (tableRows ids start fetch order)[i]?
              = some (some (renderRow (start + j) id (fetch id))))
    ∧ (∀ (i2 : Nat), i2 < ids.length →
        (∃ m, i2 < m ∧ ids[m]? = ids[i2]?) →
        ∀ (p : Nat) (r : Row),
          (tableRows ids start fetch order)[p]? = some (some r) →
          r.1 ≠ toString (start + i2)) := by
  have hmem : ∀ x, x ∈ ids → x ∈ order := fun x hx => hord.mem_iff.mpr hx
  refine ⟨tableRows_length ids start fetch order, ?_, ?_⟩
  · intro i id hid
    obtain ⟨j, hj⟩ := lastIdxOf_isSome_of_mem ids id (List.getElem?_mem hid)
    have hbound := lastIdxOf_getElem ids id j hj
    have hlast := lastIdxOf_last ids id j hj
    have hij : i ≤ j := by
      by_contra hc
      exact hlast i (by omega) hid
    refine ⟨j, hj, hij, hbound.1, hbound.2, hlast, ?_⟩
    rw [tableRows_getElem ids start fetch order hmem i id hid, post_row,
      id_to_index_eq, hj]
    rfl
  · rintro i2 hi2 ⟨m, him, hdup⟩ p r hrow hbad
    have hmem2 : some r ∈ tableRows ids start fetch order := List.getElem?_mem hrow
    rw [tableRows] at hmem2
    rcases List.mem_map.mp hmem2 with ⟨idp, hidpmem, hidp⟩
    rw [id_to_post_eq, if_pos (hmem idp hidpmem)] at hidp
    have hr : r = post_row ids start fetch idp := (Option.some.inj hidp).symm
    obtain ⟨jp, hjp⟩ := lastIdxOf_isSome_of_mem ids idp hidpmem
    have hr1 : r.1 = toString (start + jp) := by
      rw [hr, post_row, id_to_index_eq, hjp]
      simpa using renderRow_fst (start + jp) idp (fetch idp)
    rw [hr1] at hbad
    have hji : jp = i2 := by
      have := natStr_inj (start + jp) (start + i2) hbad
      omega
    rw [hji] at hjp
    have hi2get : ids[i2]? = some idp := (lastIdxOf_getElem ids idp i2 hjp).2
    exact lastIdxOf_last ids idp i2 hjp m him (hdup.trans hi2get)

/-- Witness for C10 on the duplicated window `[5, 7, 5]` with `start = 1`:
both rows for id 5 show rank 3, and rank 1 (the earlier occurrence of 5)
appears nowhere. -/
theorem C10_duplicate_ids_witness :
    ([7, 5, 5] : List Nat).Perm [5, 7, 5]
    ∧ ((tableRows [5, 7, 5] 1 (fun _ => Except.error ()) [7, 5, 5]).length = 3
      ∧ (∀ (i id : Nat), ([5, 7, 5] : List Nat)[i]? = some id →
          ∃ j, lastIdxOf [5, 7, 5] id = some j
            ∧ i ≤ j ∧ j < ([5, 7, 5] : List Nat).length
            ∧ ([5, 7, 5] : List Nat)[j]? = some id
            ∧ (∀ m, j < m → ([5, 7, 5] : List Nat)[m]? ≠ some id)
            ∧ (tableRows [5, 7, 5] 1 (fun _ => Except.error ()) [7, 5, 5])[i]?
                = some (some (renderRow (1 + j) id (Except.error ()))))
      ∧ (∀ (i2 : Nat), i2 < ([5, 7, 5] : List Nat).length →
          (∃ m, i2 < m ∧ ([5, 7, 5] : List Nat)[m]? = ([5, 7, 5] : List Nat)[i2]?) →
          ∀ (p : Nat) (r : Row),
            (tableRows [5, 7, 5] 1 (fun _ => Except.error ()) [7, 5, 5])[p]?
              = some (some r) →
            r.1 ≠ toString (1 + i2))) :=
  ⟨by decide,
    C10_duplicate_ids [5, 7, 5] 1 (fun _ => Except.error ()) [7, 5, 5] (by decide)⟩
